import Mathlib

/-!
A shallow embedding of the PheWAS notebooks of this repository (PIC-SURE API
examples): the cohort filter, the univariate screening loops
(`dic_mannwhitneyu`, `dic_fisher`, `dic_pvalues`), the Bonferroni-style
correction (`adjusted_alpha`, `p_adj`) and the construction of the plotted
table `df_results`.

Conventions of the embedding:
* a DataFrame cell is an `Option` value, `none` modelling a missing cell
  (`NaN`); float p-values are modelled as rationals;
* numeric cells are rationals; categorical cells appear in the screening
  loops only through their numeric dummy/`cat.codes` encoding, which the
  notebooks themselves perform, so the cohort columns are `Option ℚ` cells,
  while the grouping-trait column keeps its string values
  (`"Case"` / `"Control"` after filtering);
* a Python `raise` is modelled with `Except`; a loop that a raise can abort
  returns `Except partial full`, the `.error` carrying the dictionary entries
  recorded before the abort;
* the statistical routines delegated to `scipy` / `statsmodels`
  (`mannwhitneyu`, `fisher_exact`, `Logit(...).fit`) are external
  libraries, out of scope for the notebooks themselves; the screening loops
  are therefore parametric in them, and concrete executable models of their
  documented raising behaviour are provided for witnesses.
-/

namespace PheWAS

/-- One row (subject) of the cohort matrix `facts` / `facts_dummies`: the
cell of the grouping-trait column (`dependent_var_name`) together with the
remaining cells, indexed by column name.  A missing cell is `none`. -/
structure Row where
  dep : Option String
  vals : List (String × Option ℚ)
deriving DecidableEq, Repr

/-- Cell of column `v` in row `r`; a column name absent from the row stands
for a missing cell. -/
def colVal (r : Row) (v : String) : Option ℚ :=
  (r.vals.lookup v).join

/-- The grouping-trait values kept by the cohort filter:
`facts[dependent_var_name].isin(["Case", "Control"])`. -/
def keptCategories : List String := ["Case", "Control"]

/-- `Series.isin`: a missing value is never a member of the given list. -/
def isinKept : Option String → Bool
  | none => false
  | some s => keptCategories.contains s

/-- The cohort filter `facts = facts.loc[mask_dependent_var_name, :]`. -/
def cohortFilter (rows : List Row) : List Row :=
  rows.filter (fun r => isinKept r.dep)

/-- The keys of `facts_dummies.groupby(dependent_var_name)`: the distinct
non-missing values of the grouping-trait column.  (pandas lists group keys
in sorted order; no property proved below depends on the order of the keys,
so the order `dedup` produces is kept.) -/
def groupKeys (rows : List Row) : List String :=
  (rows.filterMap (·.dep)).dedup

/-- `group[1].dropna()` for the group of key `k` in `grouped[v]`: the
non-missing values of column `v` among the rows whose grouping value is
`k`. -/
def groupSeries (rows : List Row) (v k : String) : List ℚ :=
  (rows.filter (fun r => r.dep == some k)).filterMap (fun r => colVal r v)

/-- One iteration of the Mann-Whitney loop of `dic_mannwhitneyu`:

```
group1, group2 = [group[1].dropna() for group in grouped[var]]
try:
    dic_mannwhitneyu[var] = stats.mannwhitneyu(group1, group2).pvalue
except ValueError:
    dic_mannwhitneyu[var] = np.NaN
```

The two-way unpacking sits outside the `try`, so it raises (uncaught) unless
the groupby produced exactly two groups; the `try`/`except ValueError`
around the test converts a raising call into a recorded `np.NaN`.  The
external `stats.mannwhitneyu` is the parameter `mwu`: `.error` models a
`ValueError`, `.ok none` a returned `NaN` p-value, `.ok (some p)` a defined
p-value. -/
def mwuStep (mwu : List ℚ → List ℚ → Except Unit (Option ℚ))
    (rows : List Row) (v : String) : Except Unit (Option ℚ) :=
  match groupKeys rows with
  | [k1, k2] =>
    match mwu (groupSeries rows v k1) (groupSeries rows v k2) with
    | .ok p => .ok p
    | .error _ => .ok none
  | _ => .error ()

/-- The value recorded in `dic_mannwhitneyu[v]` when the groupby has the two
keys `k1`, `k2`. -/
def mwuResult (mwu : List ℚ → List ℚ → Except Unit (Option ℚ))
    (rows : List Row) (k1 k2 v : String) : Option ℚ :=
  match mwu (groupSeries rows v k1) (groupSeries rows v k2) with
  | .ok p => p
  | .error _ => none

/-- The Mann-Whitney screening loop over `continuous_varnames`, threading
the dictionary `dic_mannwhitneyu`; an uncaught exception aborts the loop,
the `.error` carrying the entries recorded before the abort. -/
def mwuLoopAux (mwu : List ℚ → List ℚ → Except Unit (Option ℚ))
    (rows : List Row) (acc : List (String × Option ℚ)) :
    List String → Except (List (String × Option ℚ)) (List (String × Option ℚ))
  | [] => .ok acc
  | v :: vs =>
    match mwuStep mwu rows v with
    | .ok p => mwuLoopAux mwu rows (acc ++ [(v, p)]) vs
    | .error _ => .error acc

/-- `dic_mannwhitneyu = {}` followed by the loop. -/
def mwuLoop (mwu : List ℚ → List ℚ → Except Unit (Option ℚ))
    (rows : List Row) (vars : List String) :
    Except (List (String × Option ℚ)) (List (String × Option ℚ)) :=
  mwuLoopAux mwu rows [] vars

/-- Every value of the list equal to its first value. -/
def allSame : List ℚ → Bool
  | [] => true
  | x :: xs => xs.all (fun y => y == x)

/-- Model of `scipy.stats.mannwhitneyu` (the scipy 1.x generation the
notebooks run on): the call raises `ValueError` exactly when the tie
correction vanishes, i.e. the pooled sample is non-empty with all values
identical; with an empty sample on either side the normal approximation has
zero variance and the returned p-value is `NaN`; otherwise a defined
p-value is returned.  No property proved below depends on the numeric value
of a defined p-value, so the model returns a deterministic placeholder for
it. -/
def mwuModel (g1 g2 : List ℚ) : Except Unit (Option ℚ) :=
  if !(g1 ++ g2).isEmpty && allSame (g1 ++ g2) then .error ()
  else if g1.isEmpty || g2.isEmpty then .ok none
  else .ok (some (1 / ((g1.length : ℚ) * (g2.length : ℚ) + 1)))

/-- The cells tabulated by
`pd.crosstab(facts_dummies[v], facts_dummies[dependent_var_name])`: the
pairs (value of `v`, grouping value) over the rows where both are
present. -/
def definedPairs (rows : List Row) (v : String) : List (ℚ × String) :=
  rows.filterMap (fun r =>
    match colVal r v, r.dep with
    | some x, some y => some (x, y)
    | _, _ => none)

/-- The `.shape` of that crosstab: (number of distinct observed values of
`v`, number of distinct observed grouping values). -/
def crosstabShape (rows : List Row) (v : String) : Nat × Nat :=
  (((definedPairs rows v).map Prod.fst).dedup.length,
   ((definedPairs rows v).map Prod.snd).dedup.length)

/-- Model of `scipy.stats.fisher_exact`, which raises `ValueError` unless
the table is 2×2.  Only whether the call raises matters to the properties
proved below, so the call acts on the table shape and the defined p-value is
a deterministic placeholder. -/
def fisherExactModel (shape : Nat × Nat) : Except Unit ℚ :=
  if shape = (2, 2) then .ok (1 / 2) else .error ()

/-- Body of the Fisher loop of `dic_fisher` after its two `continue`
guards:

```
crosstab = pd.crosstab(facts_dummies[var], facts_dummies[dependent_var_name])
if crosstab.shape == (1,2):
    dic_fisher[var] = np.NaN
else:
    dic_fisher[var] = stats.fisher_exact(crosstab)[1]
```

The external `stats.fisher_exact` is the parameter `fe`, acting on the
table shape.  No `try` surrounds the call, so an error of `fe` propagates
out of the loop. -/
def fisherStep (fe : Nat × Nat → Except Unit ℚ) (rows : List Row)
    (v : String) : Except Unit (Option ℚ) :=
  if crosstabShape rows v = (1, 2) then .ok none
  else
    match fe (crosstabShape rows v) with
    | .ok p => .ok (some p)
    | .error e => .error e

/-- The two `continue` guards of the Fisher loop, `type(var) != str` and
`var not in facts_dummies.columns`: a missing `dummies_varName` entry from
the dictionary join is a float `NaN`, modelled by `none`. -/
def validDummy (cols : List String) : Option String → Bool
  | none => false
  | some v => cols.contains v

/-- The Fisher screening loop over `dummy_categorical_varnames`, threading
the dictionary `dic_fisher`; `cols` is `facts_dummies.columns`.  Entries
failing either guard are skipped with `continue`, recording nothing. -/
def fisherLoopAux (fe : Nat × Nat → Except Unit ℚ) (cols : List String)
    (rows : List Row) (acc : List (String × Option ℚ)) :
    List (Option String) →
      Except (List (String × Option ℚ)) (List (String × Option ℚ))
  | [] => .ok acc
  | none :: vs => fisherLoopAux fe cols rows acc vs
  | some v :: vs =>
    if cols.contains v then
      match fisherStep fe rows v with
      | .ok p => fisherLoopAux fe cols rows (acc ++ [(v, p)]) vs
      | .error _ => .error acc
    else
      fisherLoopAux fe cols rows acc vs

/-- `dic_fisher = {}` followed by the loop. -/
def fisherLoop (fe : Nat × Nat → Except Unit ℚ) (cols : List String)
    (rows : List Row) (dummies : List (Option String)) :
    Except (List (String × Option ℚ)) (List (String × Option ℚ)) :=
  fisherLoopAux fe cols rows [] dummies

/-- The dummy names that survive the two `continue` guards. -/
def validNames (cols : List String) (dummies : List (Option String)) :
    List String :=
  (dummies.filterMap id).filter (fun v => cols.contains v)

/-- `matrix = facts.loc[:, [dependent_var_name, v]].dropna(how="any")`: the
two-column sub-table of (grouping value, value of `v`), keeping the rows
where both cells are present. -/
def subTable (rows : List Row) (v : String) : List (String × ℚ) :=
  rows.filterMap (fun r =>
    match r.dep, colVal r v with
    | some d, some x => some (d, x)
    | _, _ => none)

/-- One iteration of the logistic-regression screening loop of
`dic_pvalues`:

```
matrix = facts.loc[:, [dependent_var_name, independent_varName]].dropna(how="any")
if matrix.shape[0] == 0:
    dic_pvalues[independent_varName] = np.NaN
    continue
... model = Logit(dependent_var, independent_var)
try:
    results = model.fit(disp=0)
    dic_pvalues[independent_varName] = results.llr_pvalue
except (LinAlgError, PerfectSeparationError) as e:
    dic_pvalues[independent_varName] = np.NaN
```

The parameter `fit` stands for the dummy-encoding of the sub-table, the
`Logit` construction and `model.fit` together; its `.error` models the two
caught failures (singular design matrix, perfect separation), `.ok p` the
reported `llr_pvalue`. -/
def llrStep (fit : List (String × ℚ) → Except Unit ℚ) (rows : List Row)
    (v : String) : Option ℚ :=
  let m := subTable rows v
  if m.isEmpty then none
  else
    match fit m with
    | .ok p => some p
    | .error _ => none

/-- The whole loop `for independent_varName in independent_varNames: ...`,
which records exactly one dictionary entry per listed variable. -/
def llrLoop (fit : List (String × ℚ) → Except Unit ℚ) (rows : List Row)
    (vars : List String) : List (String × Option ℚ) :=
  vars.map (fun v => (v, llrStep fit rows v))

/-- One row of `variablesDict` after the p-values are joined on: the
variable name, its category label (the `group` column used by the Manhattan
plot) and its `pvalues` cell. -/
structure VRow where
  varName : String
  group : String
  pvalues : Option ℚ
deriving DecidableEq, Repr

/-- `adjusted_alpha = 0.05 / len(variablesDict["pvalues"])`: the length of a
pandas column counts every row of the frame, the `NaN` rows included. -/
def adjusted_alpha (dict : List VRow) : ℚ :=
  (1 / 20) / (dict.length : ℚ)

/-- `variablesDict["p_adj"] = variablesDict["pvalues"] / len(variablesDict["pvalues"])`,
elementwise; `NaN` divided by a number stays `NaN`. -/
def p_adj (dict : List VRow) (r : VRow) : Option ℚ :=
  r.pvalues.map (fun p => p / (dict.length : ℚ))

/-- Spec-side definition, for comparison with the code: the `N` of the
claim, "the count of variables with valid (defined) p-values". -/
def specValidCount (dict : List VRow) : Nat :=
  (dict.filter (fun r => r.pvalues.isSome)).length

/-- The number of rows whose `pvalues` cell is `NaN`. -/
def specUndefCount (dict : List VRow) : Nat :=
  (dict.filter (fun r => r.pvalues.isNone)).length

/-- The float class of a `log_p` cell `-np.log10(p)`: `NaN`, `+inf` (from
`p = 0`) or a finite value.  Downstream the cell is consumed only through
`replace([np.inf, -np.inf], np.nan)` and `.isna()`, i.e. through its class,
so a finite value is represented by the argument `p` itself (`-log10` is
injective on `0 < p`).  A `-inf` cell cannot arise from `-np.log10` of a
p-value and has no representation. -/
inductive LogP
  | NaN : LogP
  | PInf : LogP
  | Finite : ℚ → LogP
deriving DecidableEq, Repr

/-- `-np.log10` on an optional p-value cell: `NaN` on a missing cell,
`+inf` at zero, `NaN` on a negative argument. -/
def negLog10 : Option ℚ → LogP
  | none => .NaN
  | some p => if p = 0 then .PInf else if p < 0 then .NaN else .Finite p

/-- `.replace([np.inf, -np.inf], np.nan)` on a `log_p` cell. -/
def replaceInf : LogP → LogP
  | .PInf => .NaN
  | x => x

/-- The table handed to the Manhattan plot:

```
mask = variablesDict["pvalues"].isna()
df_results = variablesDict.loc[~mask,:].copy().replace([np.inf, -np.inf], np.nan)
df_results = df_results.loc[~df_results["log_p"].isna().values,:]
``` -/
def df_results (dict : List VRow) : List VRow :=
  (dict.filter (fun r => r.pvalues.isSome)).filter
    (fun r => decide (replaceInf (negLog10 r.pvalues) ≠ LogP.NaN))

/-- A two-row joined dictionary with one defined and one undefined p-value,
used to evaluate the corrector on a concrete input. -/
def dictCx : List VRow := [⟨"x", "g", some (1 / 2)⟩, ⟨"y", "g", none⟩]

/-- A filtered two-subject cohort, one subject per kept category, with a
continuous column `"x"` and a fully missing column `"y"`. -/
def wRows : List Row :=
  [⟨some "Case", [("x", some 1), ("y", none)]⟩,
   ⟨some "Control", [("x", some 2), ("y", none)]⟩]

/-- A filtered cohort in which only one kept category occurs. -/
def wRowsOne : List Row := [⟨some "Case", [("x", some 1)]⟩]

/-- A one-group cohort with a single-valued dummy column `"d"`: its
crosstab against the grouping trait has shape (1, 1). -/
def rowsShape11 : List Row := [⟨some "Case", [("d", some 1)]⟩]

/-- A two-group cohort with a single-valued dummy column `"d"`: its
crosstab against the grouping trait has shape (1, 2). -/
def rowsShape12 : List Row :=
  [⟨some "Case", [("d", some 1)]⟩, ⟨some "Control", [("d", some 1)]⟩]

/-- A fit that fails on every design: stands for a singular design matrix or
perfect separation on the input at hand. -/
def fitFail : List (String × ℚ) → Except Unit ℚ := fun _ => .error ()

/-! ## Helper lemmas -/

/-- Membership in the kept categories spelt out. -/
theorem isinKept_iff (o : Option String) :
    isinKept o = true ↔ o = some "Case" ∨ o = some "Control" := by
  cases o with
  | none => simp [isinKept]
  | some s => simp [isinKept, keptCategories, List.contains]

/-- `contains` on string lists is membership. -/
theorem contains_iff_mem (cols : List String) (v : String) :
    cols.contains v = true ↔ v ∈ cols := by
  simp [List.contains]

/-- A list of rows each carrying one of the two kept grouping values splits
into the Case rows and the Control rows. -/
theorem twoGroupCount :
    ∀ l : List Row, (∀ r ∈ l, r.dep = some "Case" ∨ r.dep = some "Control") →
      l.length = (l.filter (fun r => decide (r.dep = some "Case"))).length +
                 (l.filter (fun r => decide (r.dep = some "Control"))).length := by
  intro l
  induction l with
  | nil => intro _; rfl
  | cons r t ih =>
      intro h
      have hr := h r (by simp)
      have ht := ih (fun x hx => h x (by simp [hx]))
      have hne : ("Case" : String) ≠ "Control" := by decide
      rcases hr with h1 | h1 <;>
        simp [List.filter_cons, h1, hne, Ne.symm hne, ht] <;> omega

/-- Looking a key up in a keyed `map` of itself. -/
theorem lookup_map_self {α : Type} (f : String → α) :
    ∀ (vars : List String) (v : String), v ∈ vars →
      (vars.map (fun w => (w, f w))).lookup v = some (f v) := by
  intro vars
  induction vars with
  | nil => intro v hv; cases hv
  | cons a l ih =>
      intro v hv
      by_cases hva : v = a
      · subst hva; simp [List.lookup]
      · have hbeq : (v == a) = false := by simp [hva]
        rcases List.mem_cons.mp hv with h1 | h2
        · exact absurd h1 hva
        · simpa [List.lookup, hbeq] using ih v h2

/-- With exactly two groupby keys the Mann-Whitney iteration never raises:
its recorded value is `mwuResult`. -/
theorem mwuStep_two (mwu : List ℚ → List ℚ → Except Unit (Option ℚ))
    (rows : List Row) (k1 k2 v : String) (h : groupKeys rows = [k1, k2]) :
    mwuStep mwu rows v = .ok (mwuResult mwu rows k1 k2 v) := by
  have hstep : mwuStep mwu rows v =
      match mwu (groupSeries rows v k1) (groupSeries rows v k2) with
      | .ok p => .ok p
      | .error _ => .ok none := by
    unfold mwuStep
    rw [h]
  rw [hstep]
  unfold mwuResult
  cases mwu (groupSeries rows v k1) (groupSeries rows v k2) <;> rfl

/-- With a single groupby key the two-way unpacking raises before the
`try`. -/
theorem mwuStep_one (mwu : List ℚ → List ℚ → Except Unit (Option ℚ))
    (rows : List Row) (k v : String) (h : groupKeys rows = [k]) :
    mwuStep mwu rows v = .error () := by
  unfold mwuStep
  rw [h]

/-- With exactly two groupby keys the Mann-Whitney loop runs to the end and
records `mwuResult` for every listed variable, in order. -/
theorem mwuLoopAux_ok (mwu : List ℚ → List ℚ → Except Unit (Option ℚ))
    (rows : List Row) (k1 k2 : String) (h : groupKeys rows = [k1, k2]) :
    ∀ (vars : List String) (acc : List (String × Option ℚ)),
      mwuLoopAux mwu rows acc vars =
        .ok (acc ++ vars.map (fun v => (v, mwuResult mwu rows k1 k2 v))) := by
  intro vars
  induction vars with
  | nil => intro acc; simp [mwuLoopAux]
  | cons v vs ih =>
      intro acc
      rw [mwuLoopAux, mwuStep_two mwu rows k1 k2 v h]
      simpa using ih (acc ++ [(v, mwuResult mwu rows k1 k2 v)])

/-- Whenever the Mann-Whitney loop finishes, its keys are exactly the listed
variables (appended to whatever was accumulated). -/
theorem mwuLoopAux_keys (mwu : List ℚ → List ℚ → Except Unit (Option ℚ))
    (rows : List Row) :
    ∀ (vars : List String) (acc d : List (String × Option ℚ)),
      mwuLoopAux mwu rows acc vars = .ok d →
        d.map Prod.fst = acc.map Prod.fst ++ vars := by
  intro vars
  induction vars with
  | nil =>
      intro acc d h
      rw [mwuLoopAux] at h
      cases h
      simp
  | cons v vs ih =>
      intro acc d h
      rw [mwuLoopAux] at h
      cases hs : mwuStep mwu rows v with
      | ok p =>
          rw [hs] at h
          have := ih (acc ++ [(v, p)]) d h
          simpa using this
      | error e => rw [hs] at h; cases h

/-- Unfolding the Fisher loop on a dummy name that passes both guards. -/
theorem fisherLoopAux_cons_valid (fe : Nat × Nat → Except Unit ℚ)
    (cols : List String) (rows : List Row) (acc : List (String × Option ℚ))
    (v : String) (vs : List (Option String)) (hc : cols.contains v = true) :
    fisherLoopAux fe cols rows acc (some v :: vs) =
      match fisherStep fe rows v with
      | .ok p => fisherLoopAux fe cols rows (acc ++ [(v, p)]) vs
      | .error _ => .error acc := by
  rw [fisherLoopAux, hc, if_pos rfl]

/-- A dummy entry failing a guard is passed over with `continue`: the loop
state is untouched. -/
theorem fisherLoopAux_skip (fe : Nat × Nat → Except Unit ℚ)
    (cols : List String) (rows : List Row) (o : Option String)
    (h : validDummy cols o = false) (dummies : List (Option String))
    (acc : List (String × Option ℚ)) :
    fisherLoopAux fe cols rows acc (o :: dummies) =
      fisherLoopAux fe cols rows acc dummies := by
  cases o with
  | none => rfl
  | some v =>
      have hc : cols.contains v = false := h
      rw [fisherLoopAux, hc, if_neg (by simp)]

/-- Whenever the Fisher loop finishes, its keys are exactly the dummy names
that passed the two `continue` guards (appended to the accumulator). -/
theorem fisherLoopAux_keys (fe : Nat × Nat → Except Unit ℚ)
    (cols : List String) (rows : List Row) :
    ∀ (dummies : List (Option String)) (acc d : List (String × Option ℚ)),
      fisherLoopAux fe cols rows acc dummies = .ok d →
        d.map Prod.fst = acc.map Prod.fst ++ validNames cols dummies := by
  intro dummies
  induction dummies with
  | nil =>
      intro acc d h
      rw [fisherLoopAux] at h
      cases h
      simp [validNames]
  | cons o vs ih =>
      intro acc d h
      cases o with
      | none =>
          rw [fisherLoopAux] at h
          simpa [validNames] using ih acc d h
      | some v =>
          cases hc : cols.contains v with
          | true =>
              have hm : v ∈ cols := (contains_iff_mem cols v).mp hc
              rw [fisherLoopAux_cons_valid fe cols rows acc v vs hc] at h
              cases hs : fisherStep fe rows v with
              | ok p =>
                  rw [hs] at h
                  have hk := ih (acc ++ [(v, p)]) d h
                  have hvn : validNames cols (some v :: vs) =
                      v :: validNames cols vs := by
                    simp [validNames, List.filter_cons, hm]
                  rw [hvn]
                  simpa using hk
              | error e => rw [hs] at h; cases h
          | false =>
              have hm : v ∉ cols := fun hmem => by
                rw [(contains_iff_mem cols v).mpr hmem] at hc
                cases hc
              rw [fisherLoopAux_skip fe cols rows (some v) hc vs acc] at h
              have hvn : validNames cols (some v :: vs) = validNames cols vs := by
                simp [validNames, List.filter_cons, hm]
              rw [hvn]
              exact ih acc d h

/-- Dummy names failing a guard leave no trace: the loop behaves as if only
the valid names had been listed. -/
theorem fisherLoopAux_filter (fe : Nat × Nat → Except Unit ℚ)
    (cols : List String) (rows : List Row) :
    ∀ (dummies : List (Option String)) (acc : List (String × Option ℚ)),
      fisherLoopAux fe cols rows acc dummies =
        fisherLoopAux fe cols rows acc (dummies.filter (validDummy cols)) := by
  intro dummies
  induction dummies with
  | nil => intro acc; rfl
  | cons o vs ih =>
      intro acc
      cases o with
      | none =>
          have h1 : (none :: vs).filter (validDummy cols) =
              vs.filter (validDummy cols) := rfl
          rw [h1, fisherLoopAux, ih acc]
      | some v =>
          cases hc : cols.contains v with
          | true =>
              have hm : v ∈ cols := (contains_iff_mem cols v).mp hc
              have h1 : (some v :: vs).filter (validDummy cols) =
                  some v :: vs.filter (validDummy cols) := by
                simp [List.filter_cons, validDummy, hm]
              rw [h1, fisherLoopAux_cons_valid fe cols rows acc v vs hc,
                fisherLoopAux_cons_valid fe cols rows acc v
                  (vs.filter (validDummy cols)) hc]
              cases hs : fisherStep fe rows v with
              | ok p => exact ih (acc ++ [(v, p)])
              | error e => rfl
          | false =>
              have hm : v ∉ cols := fun hmem => by
                rw [(contains_iff_mem cols v).mpr hmem] at hc
                cases hc
              have h1 : (some v :: vs).filter (validDummy cols) =
                  vs.filter (validDummy cols) := by
                simp [List.filter_cons, validDummy, hm]
              rw [h1, fisherLoopAux_skip fe cols rows (some v) hc vs acc]
              exact ih acc

/-- A caught `fit` failure is recorded as `NaN`. -/
theorem llrStep_error (fit : List (String × ℚ) → Except Unit ℚ)
    (rows : List Row) (v : String) (h : fit (subTable rows v) = .error ()) :
    llrStep fit rows v = none := by
  unfold llrStep
  cases he : (subTable rows v).isEmpty <;> simp [he, h]

/-- A caught `mannwhitneyu` failure is recorded as `NaN`. -/
theorem mwuResult_error (mwu : List ℚ → List ℚ → Except Unit (Option ℚ))
    (rows : List Row) (k1 k2 v : String)
    (h : mwu (groupSeries rows v k1) (groupSeries rows v k2) = .error ()) :
    mwuResult mwu rows k1 k2 v = none := by
  unfold mwuResult
  rw [h]

/-- The valid and the `NaN` rows of the joined dictionary together are all
its rows. -/
theorem validCount_add_undefCount (dict : List VRow) :
    specValidCount dict + specUndefCount dict = dict.length := by
  induction dict with
  | nil => rfl
  | cons r t ih =>
      cases h : r.pvalues <;>
        simp [specValidCount, specUndefCount, List.filter_cons, h] at ih ⊢ <;>
        omega

/-- Membership in the plotted table `df_results`: exactly the rows whose
p-value cell is present and positive survive the `isna` mask and the
infinity replacement. -/
theorem mem_df_results (dict : List VRow) (r : VRow) :
    r ∈ df_results dict ↔ r ∈ dict ∧ ∃ p : ℚ, r.pvalues = some p ∧ 0 < p := by
  unfold df_results
  rw [List.mem_filter, List.mem_filter]
  constructor
  · rintro ⟨⟨hmem, hsome⟩, hlog⟩
    refine ⟨hmem, ?_⟩
    cases hp : r.pvalues with
    | none => rw [hp] at hsome; simp at hsome
    | some p =>
        refine ⟨p, rfl, ?_⟩
        rw [hp] at hlog
        by_cases h0 : p = 0
        · simp [negLog10, h0, replaceInf] at hlog
        · by_cases hneg : p < 0
          · simp [negLog10, h0, hneg, replaceInf] at hlog
          · push_neg at hneg
            exact lt_of_le_of_ne hneg (Ne.symm h0)
  · rintro ⟨hmem, p, hp, hpos⟩
    refine ⟨⟨hmem, by simp [hp]⟩, ?_⟩
    simp [hp, negLog10, hpos.ne', not_lt.mpr hpos.le, replaceInf]

/-! ## Claims -/

/-- C1, counterexample: on a two-row joined dictionary with one defined and
one undefined p-value, the code's denominator is the column length 2, not
the count 1 of valid p-values: the adjusted threshold is not `0.05 / N` and
the defined p-value's adjusted value is not `p / N` for the claim's `N`. -/
theorem claim_C1_counterexample :
    ¬ (adjusted_alpha dictCx = (1 / 20) / ((specValidCount dictCx : ℕ) : ℚ)
       ∧ p_adj dictCx ⟨"x", "g", some (1 / 2)⟩ =
           some ((1 / 2) / ((specValidCount dictCx : ℕ) : ℚ))) := by
  rintro ⟨h1, -⟩
  have hv : ((specValidCount dictCx : ℕ) : ℚ) = 1 := by
    norm_num [specValidCount, dictCx]
  have ha : adjusted_alpha dictCx = 1 / 40 := by
    norm_num [adjusted_alpha, dictCx]
  rw [ha, hv] at h1
  norm_num at h1

/-- C1, amended: the denominator the Multiplicity Corrector uses is the
total number of rows of the joined variable dictionary — the variables with
valid p-values plus those with undefined ones.  The adjusted threshold is
`0.05` over that total, each defined p-value's adjusted value is the
p-value over that total, and undefined p-values stay undefined and are
excluded from the plotted output, but they are counted in the
denominator. -/
theorem claim_C1 :
    (∀ dict : List VRow,
        adjusted_alpha dict =
          (1 / 20) / ((specValidCount dict + specUndefCount dict : ℕ) : ℚ))
  ∧ (∀ (dict : List VRow) (r : VRow) (p : ℚ), r ∈ dict → r.pvalues = some p →
        p_adj dict r =
          some (p / ((specValidCount dict + specUndefCount dict : ℕ) : ℚ)))
  ∧ (∀ (dict : List VRow) (r : VRow), r.pvalues = none → p_adj dict r = none)
  ∧ (∀ (dict : List VRow) (r : VRow), r ∈ dict → r.pvalues = none →
        r ∉ df_results dict) := by
  refine ⟨?_, ?_, ?_, ?_⟩
  · intro dict
    rw [adjusted_alpha, validCount_add_undefCount]
  · intro dict r p _ hp
    rw [p_adj, validCount_add_undefCount, hp]
    rfl
  · intro dict r hp
    rw [p_adj, hp]
    rfl
  · intro dict r _ hp hmem
    rcases ((mem_df_results dict r).mp hmem).2 with ⟨q, hq, _⟩
    rw [hp] at hq
    cases hq

/-- C1, witness: the amended corrector evaluated on the concrete two-row
dictionary. -/
theorem claim_C1_witness :
    p_adj dictCx ⟨"x", "g", some (1 / 2)⟩ =
      some ((1 / 2) / ((specValidCount dictCx + specUndefCount dictCx : ℕ) : ℚ)) := by
  exact claim_C1.2.1 dictCx ⟨"x", "g", some (1 / 2)⟩ (1 / 2)
    (List.mem_cons_self _ _) rfl

/-- C2, counterexample: a categorical Variable whose dummy name entry is a
missing (non-string) value is given to the Fisher screener and produces no
result record at all — one Variable listed, zero records — so result
records and Variables are not in 1:1 correspondence. -/
theorem claim_C2_counterexample :
    fisherLoop fisherExactModel ["c"] wRows [none] = .ok []
    ∧ ¬ (([(none : Option String)].length) =
          (([] : List (String × Option ℚ)).length)) := by
  exact ⟨rfl, by decide⟩

/-- C2, amended: in the logistic-regression variant the 1:1 correspondence
holds exactly — every listed independent Variable gets exactly one result
record, in order, and there is no record without a Variable.  The
Mann-Whitney loop likewise records exactly its listed variables whenever it
finishes.  In the Fisher variant, however, the records are in 1:1
correspondence with only the dummy names that are strings and are columns
of the cohort matrix; a Variable whose dummy name is missing or absent from
the columns has no record. -/
theorem claim_C2 :
    (∀ (fit : List (String × ℚ) → Except Unit ℚ) (rows : List Row)
        (vars : List String), (llrLoop fit rows vars).map Prod.fst = vars)
  ∧ (∀ (mwu : List ℚ → List ℚ → Except Unit (Option ℚ)) (rows : List Row)
        (vars : List String) (d : List (String × Option ℚ)),
        mwuLoop mwu rows vars = .ok d → d.map Prod.fst = vars)
  ∧ (∀ (fe : Nat × Nat → Except Unit ℚ) (cols : List String) (rows : List Row)
        (dummies : List (Option String)) (d : List (String × Option ℚ)),
        fisherLoop fe cols rows dummies = .ok d →
          d.map Prod.fst = validNames cols dummies) := by
  refine ⟨?_, ?_, ?_⟩
  · intro fit rows vars
    rw [llrLoop, List.map_map]
    exact List.map_id vars
  · intro mwu rows vars d h
    simpa using mwuLoopAux_keys mwu rows vars [] d h
  · intro fe cols rows dummies d h
    simpa using fisherLoopAux_keys fe cols rows dummies [] d h

/-- C2, witness: a concrete successful Fisher run over one valid dummy name
and one missing entry records exactly the valid name. -/
theorem claim_C2_witness :
    ([("d", (none : Option ℚ))]).map Prod.fst =
      validNames ["d"] [some "d", none] := by
  exact claim_C2.2.2 fisherExactModel ["d"] rowsShape12 [some "d", none]
    [("d", none)] rfl

/-- C3, counterexample: a categorical Variable with a single distinct
observed value whose rows all lie in one grouping category gives a
degenerate 1×1 contingency table; the guard only covers shape (1, 2), so
the test branch is reached and `fisher_exact` raises, aborting the loop —
the degenerate branch is not unreachable for every degenerate shape. -/
theorem claim_C3_counterexample :
    ((definedPairs rowsShape11 "d").map Prod.fst).dedup.length = 1
    ∧ fisherStep fisherExactModel rowsShape11 "d" = .error ()
    ∧ fisherLoop fisherExactModel ["d"] rowsShape11 [some "d"] = .error [] := by
  exact ⟨rfl, rfl, rfl⟩

/-- C3, amended: provided both retained grouping categories are observed
among the Variable's non-missing rows (so the contingency table has two
columns), a categorical Variable with a single distinct observed value
yields an undefined result and the test branch is unreachable — for every
possible behaviour of the external test.  If instead only one grouping
category is observed, the 1×1 degenerate table reaches the test branch and
the raised error propagates. -/
theorem claim_C3 :
    (∀ (fe : Nat × Nat → Except Unit ℚ) (rows : List Row) (v : String),
        ((definedPairs rows v).map Prod.fst).dedup.length = 1 →
        ((definedPairs rows v).map Prod.snd).dedup.length = 2 →
        fisherStep fe rows v = .ok none)
  ∧ (∀ (fe : Nat × Nat → Except Unit ℚ) (rows : List Row) (v : String),
        ((definedPairs rows v).map Prod.fst).dedup.length = 1 →
        ((definedPairs rows v).map Prod.snd).dedup.length = 1 →
        fe (1, 1) = .error () →
        fisherStep fe rows v = .error ()) := by
  constructor
  · intro fe rows v h1 h2
    have hsh : crosstabShape rows v = (1, 2) := by
      rw [crosstabShape, h1, h2]
    rw [fisherStep, hsh, if_pos rfl]
  · intro fe rows v h1 h2 hfe
    have hsh : crosstabShape rows v = (1, 1) := by
      rw [crosstabShape, h1, h2]
    rw [fisherStep, hsh, if_neg (by decide), hfe]

/-- C3, witness: on a two-group cohort with a single-valued dummy column the
screener records undefined, even under a test that raises on every table. -/
theorem claim_C3_witness :
    fisherStep (fun _ => .error ()) rowsShape12 "d" = .ok none := by
  exact claim_C3.1 (fun _ => .error ()) rowsShape12 "d" (by decide) (by decide)

/-- C4: per-variable screening failures are caught and localised.  In the
logistic-regression loop every listed variable gets exactly one record
regardless of failures, a variable whose fit fails (singular matrix,
perfect separation) is recorded as undefined, and a variable's record
depends only on the test's behaviour on that variable's own sub-table, so
other variables' results are what they would be had the failure not
occurred.  In the Mann-Whitney loop, with the two grouping categories
present, the loop always finishes, and a variable whose test raises a
caught `ValueError` is recorded as undefined. -/
theorem claim_C4 :
    (∀ (fit : List (String × ℚ) → Except Unit ℚ) (rows : List Row)
        (vars : List String) (v : String), v ∈ vars →
        (llrLoop fit rows vars).lookup v = some (llrStep fit rows v))
  ∧ (∀ (fit : List (String × ℚ) → Except Unit ℚ) (rows : List Row)
        (v : String), fit (subTable rows v) = .error () →
        llrStep fit rows v = none)
  ∧ (∀ (fit fit' : List (String × ℚ) → Except Unit ℚ) (rows : List Row)
        (w : String), fit (subTable rows w) = fit' (subTable rows w) →
        llrStep fit rows w = llrStep fit' rows w)
  ∧ (∀ (mwu : List ℚ → List ℚ → Except Unit (Option ℚ)) (rows : List Row)
        (vars : List String) (k1 k2 : String), groupKeys rows = [k1, k2] →
        mwuLoop mwu rows vars =
          .ok (vars.map (fun v => (v, mwuResult mwu rows k1 k2 v))))
  ∧ (∀ (mwu : List ℚ → List ℚ → Except Unit (Option ℚ)) (rows : List Row)
        (k1 k2 v : String),
        mwu (groupSeries rows v k1) (groupSeries rows v k2) = .error () →
        mwuResult mwu rows k1 k2 v = none) := by
  refine ⟨?_, ?_, ?_, ?_, ?_⟩
  · intro fit rows vars v hv
    exact lookup_map_self (llrStep fit rows) vars v hv
  · intro fit rows v h
    exact llrStep_error fit rows v h
  · intro fit fit' rows w h
    rw [llrStep, llrStep, h]
  · intro mwu rows vars k1 k2 h
    simpa using mwuLoopAux_ok mwu rows k1 k2 h vars []
  · intro mwu rows k1 k2 v h
    exact mwuResult_error mwu rows k1 k2 v h

/-- C4, witness: a failing fit on the concrete cohort is recorded as
undefined, and the Mann-Whitney loop on the concrete two-group cohort
finishes with one record per variable. -/
theorem claim_C4_witness :
    llrStep fitFail wRows "x" = none
    ∧ mwuResult (fun _ _ => .error ()) wRows "Case" "Control" "x" = none := by
  constructor
  · exact claim_C4.2.1 fitFail wRows "x" rfl
  · exact claim_C4.2.2.2.2 (fun _ _ => .error ()) wRows "Case" "Control" "x" rfl

/-- C5: a Variable whose two-column sub-table with the grouping trait is
empty after dropping missing rows is recorded as undefined.  In the
logistic-regression loop the empty-table guard fires before any test, so
the result is undefined whatever the test would have returned; in the
Mann-Whitney loop a fully missing column gives two empty samples, on which
`mannwhitneyu` either raises a caught error or returns `NaN` — either way
the recorded result is undefined. -/
theorem claim_C5 :
    (∀ (fit : List (String × ℚ) → Except Unit ℚ) (rows : List Row)
        (v : String), subTable rows v = [] → llrStep fit rows v = none)
  ∧ (∀ (mwu : List ℚ → List ℚ → Except Unit (Option ℚ)) (rows : List Row)
        (k1 k2 v : String), groupKeys rows = [k1, k2] →
        (∀ r ∈ rows, colVal r v = none) →
        (mwu [] [] = .error () ∨ mwu [] [] = .ok none) →
        mwuStep mwu rows v = .ok none) := by
  constructor
  · intro fit rows v h
    rw [llrStep, h]
    rfl
  · intro mwu rows k1 k2 v hkeys hnone hmwu
    have hser : ∀ k, groupSeries rows v k = [] := by
      intro k
      rw [groupSeries, List.filterMap_eq_nil_iff]
      intro r hr
      exact hnone r (List.mem_filter.mp hr).1
    rw [mwuStep_two mwu rows k1 k2 v hkeys, mwuResult, hser k1, hser k2]
    rcases hmwu with h | h <;> rw [h]

/-- C5, witness: the fully missing column `"y"` of the concrete cohort is
recorded as undefined by both loops — in the logistic-regression loop even
under a fit that would report a defined p-value. -/
theorem claim_C5_witness :
    llrStep (fun _ => .ok (1 / 3)) wRows "y" = none
    ∧ mwuStep mwuModel wRows "y" = .ok none := by
  constructor
  · exact claim_C5.1 (fun _ => .ok (1 / 3)) wRows "y" rfl
  · exact claim_C5.2 mwuModel wRows "Case" "Control" "y" (by decide)
      (by decide) (Or.inr rfl)

/-- C6: an undefined per-variable result is the distinguishable missing
value `NaN` — a caught failure is recorded as `none`, never `0` or any
number — and the plotted table `df_results` contains only rows with a
present p-value, omitting every variable whose result is undefined. -/
theorem claim_C6 :
    (∀ (dict : List VRow) (r : VRow), r ∈ df_results dict →
        ∃ p : ℚ, r.pvalues = some p)
  ∧ (∀ (dict : List VRow) (r : VRow), r ∈ dict → r.pvalues = none →
        r ∉ df_results dict)
  ∧ (∀ (fit : List (String × ℚ) → Except Unit ℚ) (rows : List Row)
        (v : String), fit (subTable rows v) = .error () →
        llrStep fit rows v = none)
  ∧ (∀ (mwu : List ℚ → List ℚ → Except Unit (Option ℚ)) (rows : List Row)
        (k1 k2 v : String),
        mwu (groupSeries rows v k1) (groupSeries rows v k2) = .error () →
        mwuResult mwu rows k1 k2 v = none) := by
  refine ⟨?_, ?_, ?_, ?_⟩
  · intro dict r hmem
    rcases ((mem_df_results dict r).mp hmem).2 with ⟨p, hp, _⟩
    exact ⟨p, hp⟩
  · intro dict r _ hp hmem
    rcases ((mem_df_results dict r).mp hmem).2 with ⟨q, hq, _⟩
    rw [hp] at hq
    cases hq
  · intro fit rows v h
    exact llrStep_error fit rows v h
  · intro mwu rows k1 k2 v h
    exact mwuResult_error mwu rows k1 k2 v h

/-- C6, witness: on the concrete dictionary the undefined row `"y"` is
omitted from the plotted table. -/
theorem claim_C6_witness :
    (⟨"y", "g", none⟩ : VRow) ∉ df_results dictCx := by
  exact claim_C6.2.1 dictCx ⟨"y", "g", none⟩
    (List.mem_cons_of_mem _ (List.mem_cons_self _ _)) rfl

/-- C7: the Cohort Filter retains exactly the subjects whose grouping-trait
value is `"Case"` or `"Control"`; a subject with any other value, or a
missing one, is excluded; the retained subjects split into the Case rows
and the Control rows, and every group key the screener will see is one of
the two categories. -/
theorem claim_C7 :
    (∀ (rows : List Row) (r : Row), r ∈ cohortFilter rows ↔
        r ∈ rows ∧ (r.dep = some "Case" ∨ r.dep = some "Control"))
  ∧ (∀ rows : List Row, (cohortFilter rows).length =
        ((cohortFilter rows).filter (fun r => decide (r.dep = some "Case"))).length +
        ((cohortFilter rows).filter (fun r => decide (r.dep = some "Control"))).length)
  ∧ (∀ (rows : List Row) (k : String), k ∈ groupKeys (cohortFilter rows) →
        k = "Case" ∨ k = "Control") := by
  refine ⟨?_, ?_, ?_⟩
  · intro rows r
    rw [cohortFilter, List.mem_filter, isinKept_iff]
  · intro rows
    refine twoGroupCount (cohortFilter rows) ?_
    intro r hr
    exact ((isinKept_iff r.dep).mp (List.mem_filter.mp hr).2)
  · intro rows k hk
    rw [groupKeys, List.mem_dedup, List.mem_filterMap] at hk
    rcases hk with ⟨r, hr, hdep⟩
    rcases (isinKept_iff r.dep).mp (List.mem_filter.mp hr).2 with h | h <;>
      rw [h] at hdep <;> cases hdep
    · exact Or.inl rfl
    · exact Or.inr rfl

/-- C7, witness: the filter evaluated on a concrete cohort with a Case row,
a Control row, an Other row and a missing row keeps exactly the first
two. -/
theorem claim_C7_witness :
    (⟨some "Other", []⟩ : Row) ∉
      cohortFilter [⟨some "Case", []⟩, ⟨some "Control", []⟩,
        ⟨some "Other", []⟩, ⟨none, []⟩] := by
  intro hmem
  rcases ((claim_C7.1 _ ⟨some "Other", []⟩).mp hmem).2 with h | h <;>
    exact absurd h (by decide)

/-- C8: the Mann-Whitney loop is total exactly under the precondition that
both retained grouping categories occur in the filtered cohort.  With two
groupby keys it finishes and records every variable; with a single key the
two-way unpacking raises outside the `try` at the very first variable, so
the loop aborts with no entry recorded for any continuous variable. -/
theorem claim_C8 :
    (∀ (mwu : List ℚ → List ℚ → Except Unit (Option ℚ)) (rows : List Row)
        (vars : List String) (k1 k2 : String), groupKeys rows = [k1, k2] →
        mwuLoop mwu rows vars =
          .ok (vars.map (fun v => (v, mwuResult mwu rows k1 k2 v))))
  ∧ (∀ (mwu : List ℚ → List ℚ → Except Unit (Option ℚ)) (rows : List Row)
        (k v : String) (vs : List String), groupKeys rows = [k] →
        mwuLoop mwu rows (v :: vs) = .error []) := by
  constructor
  · intro mwu rows vars k1 k2 h
    simpa using mwuLoopAux_ok mwu rows k1 k2 h vars []
  · intro mwu rows k v vs h
    rw [mwuLoop, mwuLoopAux, mwuStep_one mwu rows k v h]

/-- C8, witness: on the concrete one-group cohort the loop aborts with an
empty dictionary; on the two-group cohort it finishes. -/
theorem claim_C8_witness :
    mwuLoop mwuModel wRowsOne ["x"] = .error []
    ∧ mwuLoop mwuModel wRows ["x"] =
        .ok (["x"].map (fun v => (v, mwuResult mwuModel wRows "Case" "Control" v))) := by
  constructor
  · exact claim_C8.2 mwuModel wRowsOne "Case" "x" [] (by decide)
  · exact claim_C8.1 mwuModel wRows ["x"] "Case" "Control" (by decide)

/-- C9: a row of the results table survives into the Manhattan-plot input
`df_results` exactly when its raw p-value is present and positive: a raw
p-value of exactly 0 makes `log_p` infinite, the infinity is replaced by a
missing value and the row dropped, exactly as a row with an undefined
result. -/
theorem claim_C9 :
    (∀ (dict : List VRow) (r : VRow), r ∈ df_results dict ↔
        r ∈ dict ∧ ∃ p : ℚ, r.pvalues = some p ∧ 0 < p)
  ∧ (∀ (dict : List VRow) (r : VRow), r ∈ dict → r.pvalues = some 0 →
        r ∉ df_results dict)
  ∧ negLog10 (some 0) = LogP.PInf
  ∧ replaceInf LogP.PInf = LogP.NaN := by
  refine ⟨mem_df_results, ?_, rfl, rfl⟩
  intro dict r _ hp hmem
  rcases ((mem_df_results dict r).mp hmem).2 with ⟨q, hq, hqpos⟩
  rw [hp] at hq
  cases hq
  exact lt_irrefl 0 hqpos

/-- C9, witness: a concrete row with p-value exactly 0 is dropped from the
plotted table while its sibling with a positive p-value is kept. -/
theorem claim_C9_witness :
    (⟨"z", "g", some 0⟩ : VRow) ∉
      df_results [⟨"x", "g", some (1 / 2)⟩, ⟨"z", "g", some 0⟩] := by
  exact claim_C9.2.1 [⟨"x", "g", some (1 / 2)⟩, ⟨"z", "g", some 0⟩]
    ⟨"z", "g", some 0⟩ (List.mem_cons_of_mem _ (List.mem_cons_self _ _)) rfl

/-- C10: a dummy name that is not a string (`none`, e.g. a missing entry
from the dictionary join) or that is not a column of the cohort matrix is
skipped by the Fisher loop without producing any record: the loop's outcome
equals its outcome on the list with all such entries removed, and dropping
one invalid entry changes nothing at all. -/
theorem claim_C10 :
    (∀ (fe : Nat × Nat → Except Unit ℚ) (cols : List String) (rows : List Row)
        (dummies : List (Option String)),
        fisherLoop fe cols rows dummies =
          fisherLoop fe cols rows (dummies.filter (validDummy cols)))
  ∧ (∀ (fe : Nat × Nat → Except Unit ℚ) (cols : List String) (rows : List Row)
        (o : Option String), validDummy cols o = false →
        ∀ dummies : List (Option String),
          fisherLoop fe cols rows (o :: dummies) =
            fisherLoop fe cols rows dummies) := by
  constructor
  · intro fe cols rows dummies
    exact fisherLoopAux_filter fe cols rows dummies []
  · intro fe cols rows o h dummies
    exact fisherLoopAux_skip fe cols rows o h dummies []

/-- C10, witness: prepending a missing dummy entry to a concrete run leaves
the outcome untouched. -/
theorem claim_C10_witness :
    fisherLoop fisherExactModel ["d"] rowsShape12 [none, some "d"] =
      fisherLoop fisherExactModel ["d"] rowsShape12 [some "d"] := by
  exact claim_C10.2 fisherExactModel ["d"] rowsShape12 none rfl [some "d"]

end PheWAS
